import Mathlib

/-!
Verification of the nanobot WeChat channel (`src/nanobot/channels/wechat.py`).

The Python module is shallowly embedded: each regex substitution of
`_strip_markdown` is modelled as a character-level scanner that mirrors
Python `re.sub` semantics (leftmost match, scanning resumes after the
match, greedy and lazy quantifiers resolved as the backtracking engine
does), and the channel's mutable state (`_recent_sends`,
`_context_buffer`, flags) becomes an explicit state record transformed
by pure step functions.  Timestamps (Python floats from `time.time()`)
are modelled as `Int`: the code only adds, subtracts and compares them,
so exact integer arithmetic is a faithful model of the float arithmetic
at the granularity the claims speak about.  Character classes `\s` and
`\w` are modelled over their ASCII parts (the spec and all claims use
ASCII data only).
-/

namespace Nanobot

/-- ASCII part of Python `\s` / `str.strip` whitespace. -/
def isWs (c : Char) : Bool :=
  c == ' ' || c == '\t' || c == '\n' || c == '\r' || c == '\x0b' || c == '\x0c'

/-- ASCII part of Python `\w` (alphanumeric or underscore). -/
def isWordChar (c : Char) : Bool :=
  c.isAlphanum || c == '_'

/-- Index of the first character satisfying `p`, if any. -/
def firstIdx (p : Char → Bool) : List Char → Option Nat
  | [] => none
  | c :: rest => if p c then some 0 else (firstIdx p rest).map (· + 1)

/-- Index of the first occurrence of `target` as a contiguous sublist
(Python substring search, used for the `(.*?)` of the DOTALL fence rule). -/
def findSub (target : List Char) : List Char → Option Nat
  | [] => if target.isPrefixOf [] then some 0 else none
  | c :: rest =>
    if target.isPrefixOf (c :: rest) then some 0
    else (findSub target rest).map (· + 1)

/-- Smallest index `j` at which `target` starts, subject to every character
before `j` being distinct from `'\n'` — the resolution of a lazy `(.+?)`
(without DOTALL) followed by the literal `target`. -/
def findClose (target : List Char) : List Char → Option Nat
  | [] => if target.isPrefixOf [] then some 0 else none
  | c :: rest =>
    if target.isPrefixOf (c :: rest) then some 0
    else if c == '\n' then none
    else (findClose target rest).map (· + 1)

/-- Smallest index of a `'_'` whose following character is absent or a
non-word character (the closing `_\b` of the italic-underscore rule); the
characters skipped over must not be newlines (`.+?` without DOTALL). -/
def findCloseU : List Char → Option Nat
  | [] => none
  | c :: rest =>
    if c == '_' && (match rest with | [] => true | d :: _ => !(isWordChar d)) then
      some 0
    else if c == '\n' then none
    else (findCloseU rest).map (· + 1)

/-- Largest index of a `'\n'` in `l`, if any. -/
def lastIdxNl (l : List Char) : Option Nat :=
  (firstIdx (· == '\n') l.reverse).map (fun i => l.length - 1 - i)

/-- Anchor `^` in MULTILINE mode holds at the start of the text or right after
a newline; `prev` is the character immediately before the current position. -/
def lineStartB : Option Char → Bool
  | none => true
  | some c => c == '\n'

/-- Word-character test on the character before the current position
(string start counts as a non-word character for `\b`). -/
def isWordCharOpt : Option Char → Bool
  | none => false
  | some c => isWordChar c

/-- One generic `re.sub` scanner.  `tryM prev l` attempts a match at the
current position (`prev` = original character just before it, for `^` and
`\b`); on `some (repl, n)` the match consumed `n + 1` characters which are
replaced by `repl`, and scanning resumes after the match; on `none` the
head character is copied.  `fuel` only guarantees structural recursion and
is always instantiated with the length of the list, which is sufficient
because every match consumes at least one character. -/
def scanSubF (tryM : Option Char → List Char → Option (List Char × Nat)) :
    Nat → Option Char → List Char → List Char
  | 0, _, l => l
  | _ + 1, _, [] => []
  | fuel + 1, prev, c :: rest =>
    match tryM prev (c :: rest) with
    | some (repl, n) =>
        repl ++ scanSubF tryM fuel (some ((c :: rest).getD n c)) (rest.drop n)
    | none => c :: scanSubF tryM fuel (some c) rest

def scanSub (tryM : Option Char → List Char → Option (List Char × Nat))
    (l : List Char) : List Char :=
  scanSubF tryM l.length none l

/-- Matcher for ``re.sub(r"```[^\n]*\n(.*?)```", r"\1", text, flags=re.DOTALL)``. -/
def fenceM (_ : Option Char) (l : List Char) : Option (List Char × Nat) :=
  match l with
  | [] => none
  | c :: rest =>
    if c = '`' then
      if rest.take 2 = ['`', '`'] then
        let r2 := rest.drop 2
        match firstIdx (· == '\n') r2 with
        | none => none
        | some j =>
          match findSub ['`', '`', '`'] (r2.drop (j + 1)) with
          | none => none
          | some k => some ((r2.drop (j + 1)).take k, j + k + 6)
      else none
    else none

/-- Matcher for ``re.sub(r"`([^`]+)`", r"\1", text)``. -/
def inlineM (_ : Option Char) (l : List Char) : Option (List Char × Nat) :=
  match l with
  | [] => none
  | c :: rest =>
    if c = '`' then
      match firstIdx (· == '`') rest with
      | none => none
      | some j => if j = 0 then none else some (rest.take j, j + 1)
    else none

/-- Matcher for ``re.sub(r"!\[([^\]]*)\]\([^)]+\)", r"\1", text)``. -/
def imageM (_ : Option Char) (l : List Char) : Option (List Char × Nat) :=
  match l with
  | [] => none
  | c :: rest =>
    if c = '!' then
      if rest.take 1 = ['['] then
        let r2 := rest.drop 1
        match firstIdx (· == ']') r2 with
        | none => none
        | some j =>
          if (r2.drop (j + 1)).take 1 = ['('] then
            match firstIdx (· == ')') (r2.drop (j + 2)) with
            | none => none
            | some k => if k = 0 then none else some (r2.take j, j + k + 4)
          else none
      else none
    else none

/-- Matcher for ``re.sub(r"\[([^\]]+)\]\([^)]+\)", r"\1", text)``. -/
def linkM (_ : Option Char) (l : List Char) : Option (List Char × Nat) :=
  match l with
  | [] => none
  | c :: rest =>
    if c = '[' then
      match firstIdx (· == ']') rest with
      | none => none
      | some j =>
        if j = 0 then none
        else
          if (rest.drop (j + 1)).take 1 = ['('] then
            match firstIdx (· == ')') (rest.drop (j + 2)) with
            | none => none
            | some k => if k = 0 then none else some (rest.take j, j + k + 3)
          else none
    else none

/-- Matcher for the emphasis / strikethrough rules
``marker{r}(.+?)marker{r}`` (used with `'*'`/`'_'` at repetition 3, 2, 1
and `'~'` at repetition 2). -/
def emphM (marker : Char) (r : Nat) (_ : Option Char) (l : List Char) :
    Option (List Char × Nat) :=
  match l with
  | [] => none
  | c :: rest =>
    if c = marker then
      if rest.take (r - 1) = List.replicate (r - 1) marker then
        match rest.drop (r - 1) with
        | [] => none
        | d :: r2 =>
          if d = '\n' then none
          else
            match findClose (List.replicate r marker) r2 with
            | none => none
            | some j => some (d :: r2.take j, 2 * r + j)
      else none
    else none

/-- Matcher for ``re.sub(r"\b_(.+?)_\b", r"\1", text)``. -/
def italUM (prev : Option Char) (l : List Char) : Option (List Char × Nat) :=
  match l with
  | [] => none
  | c :: rest =>
    if c = '_' then
      if isWordCharOpt prev then none
      else
        match rest with
        | [] => none
        | d :: r2 =>
          if d = '\n' then none
          else
            match findCloseU r2 with
            | none => none
            | some j => some (d :: r2.take j, j + 2)
    else none

/-- Matcher for ``re.sub(r"^#{1,6}\s+", "", text, flags=re.MULTILINE)``.
A run of seven or more hashes never matches (backtracking the greedy
`#{1,6}` still leaves a hash, not whitespace, at the next position). -/
def headerM (prev : Option Char) (l : List Char) : Option (List Char × Nat) :=
  match l with
  | [] => none
  | c :: rest =>
    if c = '#' then
      if lineStartB prev then
        let total := 1 + (rest.takeWhile (· == '#')).length
        if total ≤ 6 then
          let wlen := ((rest.drop (total - 1)).takeWhile isWs).length
          if wlen = 0 then none else some ([], total + wlen - 1)
        else none
      else none
    else none

/-- Matcher for ``re.sub(r"^>\s?", "", text, flags=re.MULTILINE)``. -/
def bqM (prev : Option Char) (l : List Char) : Option (List Char × Nat) :=
  match l with
  | [] => none
  | c :: rest =>
    if c = '>' then
      if lineStartB prev then
        match rest with
        | [] => some ([], 0)
        | d :: _ => if isWs d then some ([], 1) else some ([], 0)
      else none
    else none

/-- Matcher for ``re.sub(r"^[-*_]{3,}\s*$", "", text, flags=re.MULTILINE)``.
`$` (MULTILINE) holds at the end of the text or just before a newline; the
greedy `\s*` backtracks to the last such position inside the whitespace run. -/
def hrM (prev : Option Char) (l : List Char) : Option (List Char × Nat) :=
  match l with
  | [] => none
  | c :: rest =>
    if c = '-' ∨ c = '*' ∨ c = '_' then
      if lineStartB prev then
        let run := 1 + (rest.takeWhile (fun x => x == '-' || x == '*' || x == '_')).length
        if run ≥ 3 then
          let after := l.drop run
          let wlen := (after.takeWhile isWs).length
          if after.length = wlen then some ([], run + wlen - 1)
          else
            match lastIdxNl (after.take wlen) with
            | none => none
            | some q => some ([], run + q - 1)
        else none
      else none
    else none

/-- Matcher for ``re.sub(r"\n{3,}", "\n\n", text)``. -/
def collapseM (_ : Option Char) (l : List Char) : Option (List Char × Nat) :=
  match l with
  | [] => none
  | c :: rest =>
    if c = '\n' then
      let run := 1 + (rest.takeWhile (· == '\n')).length
      if run ≥ 3 then some (['\n', '\n'], run - 1) else none
    else none

/-- Python `str.strip()` (ASCII whitespace part). -/
def stripEnds (l : List Char) : List Char :=
  ((l.dropWhile isWs).reverse.dropWhile isWs).reverse

/-- The function `_strip_markdown`, as the ordered chain of its sixteen transformation
steps (fenced code, inline code, images, links, bold+italic, bold, italic,
strikethrough, headers, blockquotes, horizontal rules, blank collapse,
strip), each applied to the full result of the previous one exactly as the
successive `re.sub` calls are. -/
def strip_markdown_list (l : List Char) : List Char :=
  stripEnds <|
  scanSub collapseM <|
  scanSub hrM <|
  scanSub bqM <|
  scanSub headerM <|
  scanSub (emphM '~' 2) <|
  scanSub italUM <|
  scanSub (emphM '*' 1) <|
  scanSub (emphM '_' 2) <|
  scanSub (emphM '*' 2) <|
  scanSub (emphM '_' 3) <|
  scanSub (emphM '*' 3) <|
  scanSub linkM <|
  scanSub imageM <|
  scanSub inlineM <|
  scanSub fenceM l

/-- String wrapper of `_strip_markdown`. -/
def strip_markdown (s : String) : String :=
  ⟨strip_markdown_list s.data⟩

/-- A character that can trigger none of the markdown rewrite rules: not a
backtick, asterisk, underscore, tilde, hash, blockquote marker, opening
bracket, bang, hyphen or newline. -/
def plainChar (c : Char) : Prop :=
  c ≠ '`' ∧ c ≠ '*' ∧ c ≠ '_' ∧ c ≠ '~' ∧ c ≠ '#' ∧ c ≠ '>' ∧ c ≠ '[' ∧
  c ≠ '!' ∧ c ≠ '-' ∧ c ≠ '\n'

instance (c : Char) : Decidable (plainChar c) := by
  unfold plainChar
  infer_instance

/-- Case-insensitive prefix test, modelling `re.IGNORECASE` matching of the
literal `re.escape(bot_name)` (both sides compared case-folded). -/
def ciPref : List Char → List Char → Bool
  | [], _ => true
  | _ :: _, [] => false
  | p :: ps, c :: cs => p.toLower == c.toLower && ciPref ps cs

/-- `mention_pattern.search(content) is not None`: does `content` contain a
case-insensitive occurrence of the literal `@bot_name` (the trailing `\s*`
never fails)? -/
def hasMentionL (name : List Char) : List Char → Bool
  | [] => false
  | c :: rest => (c == '@' && ciPref name rest) || hasMentionL name rest

/-- `mention_pattern.sub("", content)`: Python `re.sub` removes EVERY
non-overlapping occurrence of `@bot_name` (case-insensitive) together with
the greedy run of whitespace after it, scanning left to right.  `fuel` is
for structural recursion, always called with the list length (each
removal consumes at least one character). -/
def stripMentionF (name : List Char) : Nat → List Char → List Char
  | 0, l => l
  | _ + 1, [] => []
  | fuel + 1, c :: rest =>
    if c == '@' && ciPref name rest then
      stripMentionF name fuel ((rest.drop name.length).dropWhile isWs)
    else c :: stripMentionF name fuel rest

def stripMentionL (name : List Char) (l : List Char) : List Char :=
  stripMentionF name l.length l

/-- The fields of `WeChatConfig` consulted by the channel.  `bot_name` is
`Optional[str]` in the source; the empty string models "unset" (the code
only tests its truthiness). -/
structure WCfg where
  group_policy : String
  bot_name : String
  strip_markdown : Bool

/-- `WeChatChannel._should_respond`. -/
def should_respond (cfg : WCfg) (content : String) (is_group : Bool) :
    Bool × String :=
  if is_group = false then (true, content)
  else if cfg.group_policy ≠ "mention" then (true, content)
  else if cfg.bot_name = "" then (true, content)
  else if hasMentionL cfg.bot_name.data content.data = false then (false, content)
  else (true, ⟨stripEnds (stripMentionL cfg.bot_name.data content.data)⟩)

/-- Python `s[:n]` (first `n` code points). -/
def takeStr (n : Nat) (s : String) : String :=
  ⟨s.data.take n⟩

/-- Auxiliary fields buffered with a context entry
(`data.get("file_name")` and friends; `None` is `none`). -/
structure CtxMeta where
  file_name : Option String
  file_size : Option Int
  file_path : Option String
  url : Option String
  title : Option String
deriving DecidableEq

/-- One element of `_context_buffer[chat_id]`:
`(timestamp, sender, msg_type, content, metadata)`. -/
structure CtxEntry where
  ts : Int
  sender : String
  msg_type : String
  content : String
  meta : CtxMeta
deriving DecidableEq

/-- A parsed inbound `message` frame (fields read via `data.get`, with the
defaults the code supplies; `msg_type` already carries the default
`"text"`). -/
structure InMsg where
  sender : String
  chat_id : String
  content : String
  is_group : Bool
  is_self : Bool
  msg_type : String
  message_id : Option String
  timestamp : Option String
  file_name : Option String
  file_size : Option Int
  file_path : Option String
  url : Option String
  title : Option String
deriving DecidableEq

/-- An inbound frame after `json.loads`: a `message`, a `result`, an
`error`, a frame of unknown type, or unparseable JSON. -/
inductive Frame where
  | message (m : InMsg)
  | result (success : Bool) (command : String) (message : String)
  | error (message : String)
  | other
  | malformed
deriving DecidableEq

/-- The metadata dict passed to `_handle_message`. -/
structure DispatchMeta where
  message_id : Option String
  timestamp : Option String
  is_group : Bool
  msg_type : String
deriving DecidableEq

/-- The downstream dispatch `_handle_message(sender_id, chat_id, content,
metadata)`. -/
structure Dispatch where
  sender_id : String
  chat_id : String
  content : String
  meta : DispatchMeta
deriving DecidableEq

/-- `OutboundMessage` as consumed by `send` (content `None`/empty falsy). -/
structure OutMsg where
  chat_id : String
  content : Option String
  media : List String
deriving DecidableEq

/-- A frame written to the bridge socket by `send`. -/
inductive OutFrame where
  | send_file (chat_id : String) (filepath : String)
  | send_text (chat_id : String) (content : String)
deriving DecidableEq

/-- The channel's mutable state: connection flags, registered listeners,
`_recent_sends` (a dict in insertion order: a list of key-value pairs with
pairwise-distinct keys in every reachable state) and `_context_buffer`
(modelled as a total map, absent key = empty list, which is exactly how
`setdefault`/`pop(chat_id, [])` treat it). -/
structure ChanState where
  connected : Bool
  hasWs : Bool
  listen_registered : List String
  recent_sends : List ((String × String) × Int)
  context_buffer : String → List CtxEntry

/-- The sweep in the `is_self` branch:
`{k: t for k, t in self._recent_sends.items() if now - t < _ECHO_WINDOW}`. -/
def pruneSends (now : Int) (d : List ((String × String) × Int)) :
    List ((String × String) × Int) :=
  d.filter (fun e => now - e.2 < 30)

/-- The scan of the `is_self` branch: iterate the entries in insertion
order; on the first entry whose conversation matches and whose stored
prefix agrees with `content[:20]` on the first 20 characters, delete that
single entry and report the remaining dict; otherwise report no match. -/
def echoScan (chat content : String) :
    List ((String × String) × Int) → Option (List ((String × String) × Int))
  | [] => none
  | e :: rest =>
    if e.1.1 = chat ∧ takeStr 20 content = takeStr 20 e.1.2 then some rest
    else (echoScan chat content rest).map (e :: ·)

/-- Python dict assignment `d[k] = v`: overwrite in place if the key is
present, append otherwise. -/
def dictInsert (k : String × String) (v : Int)
    (d : List ((String × String) × Int)) : List ((String × String) × Int) :=
  if d.any (fun e => e.1 == k) then
    d.map (fun e => if e.1 = k then (k, v) else e)
  else d ++ [(k, v)]

/-- Body of `WeChatChannel._buffer_context` on one conversation's list:
evict entries aged `_CONTEXT_BUFFER_TTL` or more, pop the single oldest
entry if still at capacity `_CONTEXT_BUFFER_MAX`, then append the new
entry stamped `now`. -/
def bufferAppend (now : Int) (sender msg_type content : String)
    (meta : CtxMeta) (buf : List CtxEntry) : List CtxEntry :=
  let kept := buf.filter (fun e => now - e.ts < 300)
  let kept2 := if kept.length ≥ 10 then kept.drop 1 else kept
  kept2 ++ [⟨now, sender, msg_type, content, meta⟩]

/-- `WeChatChannel._buffer_context` on the whole buffer map. -/
def buffer_context (now : Int) (m : InMsg) (f : String → List CtxEntry) :
    String → List CtxEntry :=
  fun c =>
    if c = m.chat_id then
      bufferAppend now m.sender m.msg_type m.content
        ⟨m.file_name, m.file_size, m.file_path, m.url, m.title⟩ (f m.chat_id)
    else f c

/-- Round half to even of `q / d` (`d > 0`), the rounding used by Python
float formatting; the divisions `n/1024` and `n/1024/1024` are exact in
binary floating point for the sizes involved, so `.1f` formatting rounds
the exact rational value half-to-even. -/
def rheDiv (q d : Nat) : Nat :=
  let fl := q / d
  let r := q % d
  if 2 * r > d then fl + 1
  else if 2 * r < d then fl
  else if fl % 2 = 0 then fl else fl + 1

/-- One-decimal rendering of `q / d` with a unit suffix (Python `.1f`). -/
def fmtOneDec (q d : Nat) (unit : String) : String :=
  let t := rheDiv (q * 10) d
  toString (t / 10) ++ "." ++ toString (t % 10) ++ unit

/-- `WeChatChannel._fmt_size`. -/
def fmt_size : Option Int → String
  | none => ""
  | some n =>
    if n = 0 then ""
    else if n < 1024 then toString n ++ "B"
    else if n < 1024 * 1024 then fmtOneDec n.toNat 1024 "KB"
    else fmtOneDec n.toNat (1024 * 1024) "MB"

/-- `WeChatChannel._format_context_line`. -/
def format_context_line (sender msg_type content : String) (meta : CtxMeta) :
    String :=
  if msg_type = "text" then "[" ++ sender ++ "] " ++ content
  else if msg_type = "file" then
    let name := match meta.file_name with
      | some s => if s = "" then content else s
      | none => content
    let sizeTruthy : Bool := match meta.file_size with
      | some n => n != 0
      | none => false
    let size_str := if sizeTruthy then " (" ++ fmt_size meta.file_size ++ ")" else ""
    let path := match meta.file_path with
      | some s => s
      | none => ""
    let path_str := if path = "" then "" else " [path: " ++ path ++ "]"
    "[" ++ sender ++ " 发送了文件] " ++ name ++ size_str ++ path_str
  else if msg_type = "link" then
    let title := match meta.title with
      | some s => if s = "" then content else s
      | none => content
    let url := match meta.url with
      | some s => s
      | none => ""
    "[" ++ sender ++ " 分享了链接] " ++ title ++
      (if url = "" then "" else " (" ++ url ++ ")")
  else if msg_type = "image" then "[" ++ sender ++ " 发送了图片]"
  else if msg_type = "video" then "[" ++ sender ++ " 发送了视频]"
  else if msg_type = "quote" then "[" ++ sender ++ " 引用回复] " ++ content
  else "[" ++ sender ++ " 发送了" ++ msg_type ++ "消息] " ++ takeStr 50 content

/-- Rendering part of `WeChatChannel._flush_context` on one conversation's
popped list: skip entries strictly older than the TTL, format the rest in
arrival order, keep non-empty lines, join with newlines. -/
def flushList (now : Int) (buf : List CtxEntry) : String :=
  if buf = [] then ""
  else
    String.intercalate "\n"
      (((buf.filter (fun e => ¬ now - e.ts > 300)).map
          (fun e => format_context_line e.sender e.msg_type e.content e.meta)).filter
        (fun s => s ≠ ""))

/-- `WeChatChannel._flush_context`: pop the conversation's entire list and
render it. -/
def flush_context (now : Int) (chat : String) (f : String → List CtxEntry) :
    String × (String → List CtxEntry) :=
  (flushList now (f chat), fun c => if c = chat then [] else f c)

/-- `WeChatChannel._handle_bridge_message` as a pure step function: from a
parsed frame and the current state to the next state plus the optional
downstream dispatch.  `result` / `error` / unknown frames only log;
malformed JSON is logged and dropped. -/
def handle_bridge_message (cfg : WCfg) (now : Int) (fr : Frame)
    (st : ChanState) : ChanState × Option Dispatch :=
  match fr with
  | .message m =>
    let afterEcho : ChanState × Bool :=
      if m.is_self = true then
        let pruned := pruneSends now st.recent_sends
        match echoScan m.chat_id m.content pruned with
        | some rest => ({ st with recent_sends := rest }, true)
        | none => ({ st with recent_sends := pruned }, false)
      else (st, false)
    let st1 := afterEcho.1
    if afterEcho.2 then (st1, none)
    else
      let sr := should_respond cfg m.content m.is_group
      if sr.1 = false then
        if m.is_group = true then
          ({ st1 with context_buffer := buffer_context now m st1.context_buffer },
           none)
        else (st1, none)
      else
        let flushed :=
          if m.is_group = true then flush_context now m.chat_id st1.context_buffer
          else ("", st1.context_buffer)
        let content :=
          if flushed.1 ≠ "" then flushed.1 ++ "\n" ++ sr.2 else sr.2
        ({ st1 with context_buffer := flushed.2 },
         some ⟨m.sender, m.chat_id, content,
               ⟨m.message_id, m.timestamp, m.is_group, m.msg_type⟩⟩)
  | .result _ _ _ => (st, none)
  | .error _ => (st, none)
  | .other => (st, none)
  | .malformed => (st, none)

/-- `WeChatChannel.send` as a pure function: next state plus the frames
written to the socket.  Not connected: log a warning and do nothing.
Otherwise: one `send_file` frame per media path, then, if the content is
truthy, a `send_text` frame of the (optionally normalized) content and a
fingerprint `(chat_id, content[:20]) -> now` recorded in `_recent_sends`. -/
def sendMsg (cfg : WCfg) (now : Int) (st : ChanState) (msg : OutMsg) :
    ChanState × List OutFrame :=
  if st.hasWs = false ∨ st.connected = false then (st, [])
  else
    let fileFrames := msg.media.map (fun p => OutFrame.send_file msg.chat_id p)
    match msg.content with
    | none => (st, fileFrames)
    | some c =>
      if c = "" then (st, fileFrames)
      else
        let content := if cfg.strip_markdown then strip_markdown c else c
        ({ st with recent_sends :=
            dictInsert (msg.chat_id, takeStr 20 content) now st.recent_sends },
         fileFrames ++ [OutFrame.send_text msg.chat_id content])

/-! Concrete fixtures used by scenario conjuncts, witnesses and
counterexamples. -/

/-- A configuration with the mention policy and bot name "Bot". -/
def cfgMention : WCfg := ⟨"mention", "Bot", false⟩

/-- The empty context-buffer map. -/
def emptyBuf : String → List CtxEntry := fun _ => []

/-- A connected channel with no recorded state. -/
def stConnected : ChanState := ⟨true, true, [], [], emptyBuf⟩

/-- A disconnected channel. -/
def stDisconnected : ChanState := ⟨false, false, [], [], emptyBuf⟩

/-- Empty auxiliary metadata. -/
def noMeta : CtxMeta := ⟨none, none, none, none, none⟩

/-- A non-mention group text message from alice. -/
def msgHi : InMsg :=
  ⟨"alice", "g", "hi", true, false, "text", some "m1", some "t1",
   none, none, none, none, none⟩

/-- A mentioning group message from bob. -/
def msgMention : InMsg :=
  ⟨"bob", "g", "@Bot what\u0027s up", true, false, "text", some "m2", some "t2",
   none, none, none, none, none⟩

/-- An outbound text message. -/
def outHello : OutMsg := ⟨"c", some "hello world this is a long message", []⟩

/-- A self-observation of `outHello` with an altered tail beyond the first
20 characters. -/
def selfEcho : InMsg :=
  ⟨"me", "c", "hello world this is a long message with altered tail",
   false, true, "text", none, none, none, none, none, none, none⟩

/-- A connected channel with one recorded send fingerprint. -/
def stOneSend : ChanState := ⟨true, true, [], [(("c", "hello"), 100)], emptyBuf⟩

/-- A self-observation matching the fingerprint of `stOneSend`. -/
def selfHello : InMsg :=
  ⟨"me", "c", "hello", false, true, "text", none, none, none, none, none,
   none, none⟩

/-- A buffer map holding one stale and one fresh entry for chat "g". -/
def bufG : String → List CtxEntry := fun c =>
  if c = "g" then
    [⟨0, "old", "text", "stale", noMeta⟩, ⟨400, "alice", "text", "hi", noMeta⟩]
  else []

/-- The state after sending the same text twice within the echo window. -/
def stTwoSends : ChanState :=
  (sendMsg cfgMention 105 (sendMsg cfgMention 100 stConnected outHello).1
    outHello).1

/-- The state after the first self-echo of the doubled send. -/
def stAfterEcho : ChanState :=
  (handle_bridge_message cfgMention 110 (.message selfEcho) stTwoSends).1

/-! Helper lemmas. -/

lemma length_bufferAppend_le (now : Int) (sender msg_type content : String)
    (meta : CtxMeta) (buf : List CtxEntry) (h : buf.length ≤ 10) :
    (bufferAppend now sender msg_type content meta buf).length ≤ 10 := by
  have hk : (buf.filter (fun e => now - e.ts < 300)).length ≤ buf.length :=
    List.length_filter_le _ _
  unfold bufferAppend
  by_cases hc : (buf.filter (fun e => now - e.ts < 300)).length ≥ 10
  · simp only [hc, if_pos, List.length_append, List.length_drop,
      List.length_cons, List.length_nil]
    omega
  · simp only [hc, if_neg, List.length_append, List.length_cons,
      List.length_nil, if_false]
    omega

lemma format_context_line_ne (sender msg_type content : String)
    (meta : CtxMeta) : format_context_line sender msg_type content meta ≠ "" := by
  have h3 : ("[" : String).length = 1 := rfl
  have h4 : ("" : String).length = 0 := rfl
  unfold format_context_line
  split_ifs <;>
    · intro h
      have h2 := congrArg String.length h
      simp only [String.length_append] at h2
      omega

/-! Claim theorems. -/

/-- C7: frames that are malformed JSON, of type result, of type error, or
of unknown type leave the whole channel state (send tracker, every context
buffer sequence, listener registrations, connection flags) unchanged and
dispatch nothing downstream. -/
theorem non_message_frames_no_state_change (cfg : WCfg) (now : Int)
    (st : ChanState) :
    handle_bridge_message cfg now .malformed st = (st, none) ∧
    (∀ success command message,
        handle_bridge_message cfg now (.result success command message) st =
          (st, none)) ∧
    (∀ message,
        handle_bridge_message cfg now (.error message) st = (st, none)) ∧
    handle_bridge_message cfg now .other st = (st, none) :=
  ⟨rfl, fun _ _ _ => rfl, fun _ => rfl, rfl⟩

/-- C8: sending while not connected is a no-op apart from logging: no
frame is transmitted, the send tracker and the rest of the state are
unchanged, nothing is queued, and the (total) function returns normally. -/
theorem send_disconnected_noop (cfg : WCfg) (now : Int) (st : ChanState)
    (msg : OutMsg) (h : st.hasWs = false ∨ st.connected = false) :
    sendMsg cfg now st msg = (st, []) := by
  unfold sendMsg
  rw [if_pos h]

/-- Witness for C8 at a concrete disconnected state. -/
theorem send_disconnected_noop_witness :
    sendMsg cfgMention 0 stDisconnected outHello = (stDisconnected, []) :=
  send_disconnected_noop cfgMention 0 stDisconnected outHello (Or.inl rfl)

/-- C5: a conversation's context-buffer sequence never exceeds 10 entries:
a single append preserves the bound (at capacity, the single oldest entry
is popped after TTL eviction), and hence any sequence of appends starting
within the bound stays within it. -/
theorem context_buffer_capacity (now : Int) (sender msg_type content : String)
    (meta : CtxMeta) (buf : List CtxEntry) (h : buf.length ≤ 10) :
    (bufferAppend now sender msg_type content meta buf).length ≤ 10 ∧
    ((buf.filter (fun e => now - e.ts < 300)).length = 10 →
        bufferAppend now sender msg_type content meta buf =
          (buf.filter (fun e => now - e.ts < 300)).drop 1 ++
            [⟨now, sender, msg_type, content, meta⟩]) ∧
    (∀ ops : List (Int × String × String × String × CtxMeta),
        (ops.foldl
            (fun b a => bufferAppend a.1 a.2.1 a.2.2.1 a.2.2.2.1 a.2.2.2.2 b)
            buf).length ≤ 10) := by
  refine ⟨length_bufferAppend_le now sender msg_type content meta buf h, ?_, ?_⟩
  · intro h10
    simp only [bufferAppend, h10, ge_iff_le, le_refl, if_true]
  · intro ops
    induction ops generalizing buf with
    | nil => exact h
    | cons a tl ih =>
        rw [List.foldl_cons]
        exact ih _ (length_bufferAppend_le _ _ _ _ _ _ h)

/-- Witness for C5 at the empty buffer. -/
theorem context_buffer_capacity_witness :
    (bufferAppend 0 "alice" "text" "hi" noMeta []).length ≤ 10 ∧
    (∀ ops : List (Int × String × String × String × CtxMeta),
        (ops.foldl
            (fun b a => bufferAppend a.1 a.2.1 a.2.2.1 a.2.2.2.1 a.2.2.2.2 b)
            ([] : List CtxEntry)).length ≤ 10) :=
  ⟨(context_buffer_capacity 0 "alice" "text" "hi" noMeta [] (by decide)).1,
   (context_buffer_capacity 0 "alice" "text" "hi" noMeta [] (by decide)).2.2⟩

/-- C6: flushing removes and returns the whole buffered sequence of the
conversation: an empty or unknown conversation yields the empty string,
other conversations are untouched, a second flush with no intervening
append yields the empty string, and the returned text is exactly the
entries not strictly older than the TTL, rendered in arrival order and
joined by newlines. -/
theorem flush_context_spec (now now2 : Int) (f : String → List CtxEntry)
    (chat : String) :
    (f chat = [] → (flush_context now chat f).1 = "") ∧
    ((flush_context now chat f).2 chat = []) ∧
    (∀ c, c ≠ chat → (flush_context now chat f).2 c = f c) ∧
    ((flush_context now2 chat (flush_context now chat f).2).1 = "") ∧
    ((flush_context now chat f).1 =
      String.intercalate "\n"
        (((f chat).filter (fun e => ¬ now - e.ts > 300)).map
          (fun e => format_context_line e.sender e.msg_type e.content e.meta))) := by
  refine ⟨?_, ?_, ?_, ?_, ?_⟩
  · intro h
    simp [flush_context, h, flushList]
  · simp [flush_context]
  · intro c hc
    simp [flush_context, hc]
  · simp [flush_context, flushList]
  · show flushList now (f chat) = _
    unfold flushList
    by_cases h : f chat = []
    · simp [h]
      decide
    · rw [if_neg h]
      congr 1
      apply List.filter_eq_self.mpr
      intro a ha
      simp only [List.mem_map] at ha
      obtain ⟨e, _, he⟩ := ha
      subst he
      simpa using format_context_line_ne e.sender e.msg_type e.content e.meta

/-- Witness for C6 at a concrete buffer containing one stale and one fresh
entry: the stale entry is absent from the output, the buffer is emptied,
a repeated flush and an unknown conversation yield the empty string. -/
theorem flush_context_spec_witness :
    (flush_context 650 "g" bufG).2 "g" = [] ∧
    (flush_context 800 "g" (flush_context 650 "g" bufG).2).1 = "" ∧
    (flush_context 650 "g" bufG).1 = "[alice] hi" ∧
    (flush_context 650 "nobody" bufG).1 = "" := by
  have h := flush_context_spec 650 800 bufG "g"
  refine ⟨h.2.1, h.2.2.2.1, ?_, ?_⟩
  · rw [h.2.2.2.2]
    decide
  · exact (flush_context_spec 650 800 bufG "nobody").1 rfl

/-- C2 counterexample: the claim predicts that only the FIRST occurrence of
the mention (plus its trailing whitespace) is removed, which at content
"@Bot a @Bot" would give "a @Bot"; the code removes every occurrence and
strips the result, giving "a". -/
theorem mention_gate_not_first_only :
    should_respond cfgMention "@Bot a @Bot" true = (true, "a") ∧
    ("a" : String) ≠ "a @Bot" := by
  constructor
  · decide
  · decide

/-- C2 amended: in a group under the mention policy with bot name "Bot",
content without a case-insensitive occurrence of the literal mention is
returned unchanged with must-respond false; content with one has EVERY
occurrence removed together with its trailing whitespace and the result
stripped of surrounding whitespace, with must-respond true; in particular
"@Bot hello" yields (true, "hello") and "hello" yields (false, "hello"). -/
theorem mention_gate_spec (cfg : WCfg) (hpol : cfg.group_policy = "mention")
    (hname : cfg.bot_name = "Bot") :
    (∀ content : String,
        hasMentionL cfg.bot_name.data content.data = false →
          should_respond cfg content true = (false, content)) ∧
    (∀ content : String,
        hasMentionL cfg.bot_name.data content.data = true →
          should_respond cfg content true =
            (true, ⟨stripEnds (stripMentionL cfg.bot_name.data content.data)⟩)) ∧
    should_respond cfg "@Bot hello" true = (true, "hello") ∧
    should_respond cfg "hello" true = (false, "hello") := by
  obtain ⟨gp, bn, sm⟩ := cfg
  simp only [WCfg.group_policy] at hpol
  simp only [WCfg.bot_name] at hname
  subst hpol hname
  refine ⟨?_, ?_, ?_, ?_⟩
  · intro content hno
    simp [should_respond, hno]
  · intro content hyes
    simp [should_respond, hyes]
  · have hyes : hasMentionL ("Bot" : String).data ("@Bot hello" : String).data = true := by
      decide
    simp [should_respond, hyes]
    decide
  · have hno : hasMentionL ("Bot" : String).data ("hello" : String).data = false := by
      decide
    simp [should_respond, hno]

/-- Witness for C2 at the concrete mention-policy configuration. -/
theorem mention_gate_spec_witness :
    should_respond cfgMention "@Bot hello" true = (true, "hello") ∧
    should_respond cfgMention "hello" true = (false, "hello") :=
  ⟨(mention_gate_spec cfgMention rfl rfl).2.2.1,
   (mention_gate_spec cfgMention rfl rfl).2.2.2⟩

/-- C3: when the mention gate passes a non-self group message, the
dispatcher flushes that conversation's context buffer, prepends the
rendered text (with a newline) to the cleaned content when it is
non-empty (cleaned content alone otherwise), and dispatches with metadata
message id, timestamp, group flag and message kind; concretely, a
buffered non-mention "hi" from alice followed by a mention dispatches
"[alice] hi", a newline and the cleaned content, leaving the buffer empty. -/
theorem dispatch_flush_prepend (cfg : WCfg) (now : Int) (m : InMsg)
    (st : ChanState) (hself : m.is_self = false) (hg : m.is_group = true)
    (hgate : (should_respond cfg m.content m.is_group).1 = true) :
    (handle_bridge_message cfg now (.message m) st =
      ({ st with context_buffer :=
            fun c => if c = m.chat_id then [] else st.context_buffer c },
       some ⟨m.sender, m.chat_id,
             (if flushList now (st.context_buffer m.chat_id) ≠ "" then
                flushList now (st.context_buffer m.chat_id) ++ "\n" ++
                  (should_respond cfg m.content m.is_group).2
              else (should_respond cfg m.content m.is_group).2),
             ⟨m.message_id, m.timestamp, true, m.msg_type⟩⟩)) ∧
    ((handle_bridge_message cfgMention 1000 (.message msgHi) stConnected).2 =
      none) ∧
    ((handle_bridge_message cfgMention 1000 (.message msgHi)
        stConnected).1.context_buffer "g" =
      [⟨1000, "alice", "text", "hi", noMeta⟩]) ∧
    ((handle_bridge_message cfgMention 1010 (.message msgMention)
        (handle_bridge_message cfgMention 1000 (.message msgHi)
          stConnected).1).2 =
      some ⟨"bob", "g", "[alice] hi\nwhat's up",
            ⟨some "m2", some "t2", true, "text"⟩⟩) ∧
    ((handle_bridge_message cfgMention 1010 (.message msgMention)
        (handle_bridge_message cfgMention 1000 (.message msgHi)
          stConnected).1).1.context_buffer "g" =
      []) := by
  refine ⟨?_, by decide, by decide, by decide, by decide⟩
  rw [hg] at hgate
  simp only [handle_bridge_message, hself, Bool.false_eq_true, if_false,
    hgate, hg, if_true, Bool.true_eq_false, flush_context]

/-- Witness for C3 at the concrete mentioning message on a connected state. -/
theorem dispatch_flush_prepend_witness :
    handle_bridge_message cfgMention 1010 (.message msgMention) stConnected =
      ({ stConnected with context_buffer :=
            fun c => if c = msgMention.chat_id then []
                     else stConnected.context_buffer c },
       some ⟨msgMention.sender, msgMention.chat_id,
             (if flushList 1010 (stConnected.context_buffer msgMention.chat_id) ≠ "" then
                flushList 1010 (stConnected.context_buffer msgMention.chat_id) ++ "\n" ++
                  (should_respond cfgMention msgMention.content msgMention.is_group).2
              else (should_respond cfgMention msgMention.content msgMention.is_group).2),
             ⟨msgMention.message_id, msgMention.timestamp, true,
              msgMention.msg_type⟩⟩) :=
  (dispatch_flush_prepend cfgMention 1010 msgMention stConnected rfl rfl
    (by decide)).1

lemma echoScan_none_iff (chat content : String)
    (l : List ((String × String) × Int)) :
    echoScan chat content l = none ↔
      ∀ e ∈ l, ¬(e.1.1 = chat ∧ takeStr 20 content = takeStr 20 e.1.2) := by
  induction l with
  | nil => simp [echoScan]
  | cons e rest ih =>
      by_cases hc : e.1.1 = chat ∧ takeStr 20 content = takeStr 20 e.1.2
      · simp [echoScan, hc]
      · rw [echoScan, if_neg hc, Option.map_eq_none', ih]
        constructor
        · intro h e' he'
          rcases List.mem_cons.mp he' with rfl | hmem
          · exact hc
          · exact h e' hmem
        · intro h e' he'
          exact h e' (List.mem_cons_of_mem _ he')

lemma echoScan_some_decomp (chat content : String) :
    ∀ (l rest : List ((String × String) × Int)),
      echoScan chat content l = some rest →
      ∃ pre e post, l = pre ++ e :: post ∧ rest = pre ++ post ∧
        e.1.1 = chat ∧ takeStr 20 content = takeStr 20 e.1.2 := by
  intro l
  induction l with
  | nil => intro rest h; simp [echoScan] at h
  | cons a tl ih =>
      intro rest h
      by_cases hc : a.1.1 = chat ∧ takeStr 20 content = takeStr 20 a.1.2
      · rw [echoScan, if_pos hc] at h
        obtain rfl : tl = rest := by simpa using h
        exact ⟨[], a, tl, rfl, rfl, hc.1, hc.2⟩
      · rw [echoScan, if_neg hc] at h
        rw [Option.map_eq_some'] at h
        obtain ⟨r2, h1, rfl⟩ := h
        obtain ⟨pre, e, post, hdec, hr, hc1, hc2⟩ := ih r2 h1
        exact ⟨a :: pre, e, post, by simp [hdec], by simp [hr], hc1, hc2⟩

lemma echoScan_some_sublist (chat content : String)
    (l rest : List ((String × String) × Int))
    (h : echoScan chat content l = some rest) : rest.Sublist l := by
  obtain ⟨pre, e, post, hdec, hr, _, _⟩ := echoScan_some_decomp chat content l rest h
  rw [hdec, hr]
  exact (List.sublist_cons_self e post).append_left pre

lemma echoScan_after_erase (chat content : String)
    (l rest : List ((String × String) × Int))
    (hkeys : (l.map (fun e => e.1)).Nodup)
    (hpfx : ∀ e ∈ l, takeStr 20 e.1.2 = e.1.2)
    (h : echoScan chat content l = some rest)
    (p : (String × String) × Int → Bool) :
    echoScan chat content (rest.filter p) = none := by
  obtain ⟨pre, e, post, hdec, hr, hc1, hc2⟩ :=
    echoScan_some_decomp chat content l rest h
  rw [echoScan_none_iff]
  intro e' he' hcond'
  have he'rest : e' ∈ rest := List.mem_of_mem_filter he'
  have he'l : e' ∈ l := by
    rw [hdec]
    rw [hr] at he'rest
    simp only [List.mem_append, List.mem_cons] at he'rest ⊢
    tauto
  have hel : e ∈ l := by
    rw [hdec]
    simp
  have hkey' : e'.1 = (chat, takeStr 20 content) := by
    have h2 := hpfx e' he'l
    have h3 : e'.1.2 = takeStr 20 content := by rw [← h2, ← hcond'.2]
    exact Prod.ext hcond'.1 h3
  have hkeye : e.1 = (chat, takeStr 20 content) := by
    have h2 := hpfx e hel
    have h3 : e.1.2 = takeStr 20 content := by rw [← h2, ← hc2]
    exact Prod.ext hc1 h3
  rw [hdec, List.map_append, List.map_cons] at hkeys
  have hnd := List.nodup_middle.mp hkeys
  have hni := (List.nodup_cons.mp hnd).1
  apply hni
  rw [← List.map_append]
  have : e' ∈ pre ++ post := by rw [← hr]; exact he'rest
  have hm : e'.1 ∈ (pre ++ post).map (fun x => x.1) :=
    List.mem_map_of_mem _ this
  rw [hkey', ← hkeye] at hm
  exact hm

/-- C1: on a self-observed message the echo check first removes every
fingerprint aged 30 seconds or more (every surviving entry is younger),
then, on a match, removes exactly the matched entry and suppresses the
message with no downstream dispatch; after that removal the same
fingerprint can never match again at any later sweep, so one fingerprint
suppresses at most one echo; and when no fingerprint matches, the
message falls through exactly as a non-self message over the pruned
tracker. -/
theorem echo_suppression_spec (cfg : WCfg) (now now2 : Int) (m : InMsg)
    (st : ChanState) (hself : m.is_self = true)
    (hkeys : (st.recent_sends.map (fun e => e.1)).Nodup)
    (hpfx : ∀ e ∈ st.recent_sends, takeStr 20 e.1.2 = e.1.2) :
    (∀ e ∈ pruneSends now st.recent_sends, now - e.2 < 30) ∧
    (∀ rest,
        echoScan m.chat_id m.content (pruneSends now st.recent_sends) =
            some rest →
          handle_bridge_message cfg now (.message m) st =
            ({ st with recent_sends := rest }, none) ∧
          echoScan m.chat_id m.content (pruneSends now2 rest) = none) ∧
    (echoScan m.chat_id m.content (pruneSends now st.recent_sends) = none →
        handle_bridge_message cfg now (.message m) st =
          handle_bridge_message cfg now (.message { m with is_self := false })
            { st with recent_sends := pruneSends now st.recent_sends }) := by
  refine ⟨?_, ?_, ?_⟩
  · intro e he
    have := List.of_mem_filter he
    simpa using this
  · intro rest hscan
    constructor
    · simp only [handle_bridge_message, hself, if_true, hscan]
    · have hkeysP : ((pruneSends now st.recent_sends).map (fun e => e.1)).Nodup :=
        ((List.filter_sublist _).map _).nodup hkeys
      have hpfxP : ∀ e ∈ pruneSends now st.recent_sends,
          takeStr 20 e.1.2 = e.1.2 :=
        fun e he => hpfx e (List.mem_of_mem_filter he)
      exact echoScan_after_erase m.chat_id m.content _ rest hkeysP hpfxP hscan _
  · intro hnone
    simp only [handle_bridge_message, hself, if_true, hnone,
      Bool.false_eq_true, if_false]
    rfl

/-- Witness for C1 at a concrete matching self-observation. -/
theorem echo_suppression_spec_witness :
    handle_bridge_message cfgMention 110 (.message selfHello) stOneSend =
      ({ stOneSend with recent_sends := [] }, none) ∧
    echoScan selfHello.chat_id selfHello.content (pruneSends 200 []) = none :=
  (echo_suppression_spec cfgMention 110 200 selfHello stOneSend rfl
      (by decide) (by decide)).2.1 [] (by decide)

lemma dictInsert_map_key (k : String × String) (v : Int)
    (d : List ((String × String) × Int)) :
    (dictInsert k v d).map (fun e => e.1) =
      if d.any (fun e => e.1 == k) then d.map (fun e => e.1)
      else d.map (fun e => e.1) ++ [k] := by
  unfold dictInsert
  by_cases h : d.any (fun e => e.1 == k)
  · rw [if_pos h, if_pos h, List.map_map]
    apply List.map_congr_left
    intro e _
    by_cases he : e.1 = k
    · simp [he]
    · simp [he]
  · rw [if_neg h, if_neg h, List.map_append]
    rfl

lemma dictInsert_nodup (k : String × String) (v : Int)
    (d : List ((String × String) × Int))
    (h : (d.map (fun e => e.1)).Nodup) :
    ((dictInsert k v d).map (fun e => e.1)).Nodup := by
  rw [dictInsert_map_key]
  by_cases hp : d.any (fun e => e.1 == k)
  · rwa [if_pos hp]
  · rw [if_neg hp]
    have hk : k ∉ d.map (fun e => e.1) := by
      intro hmem
      apply hp
      rw [List.any_eq_true]
      obtain ⟨e, he, hke⟩ := List.mem_map.mp hmem
      exact ⟨e, he, by simp [hke]⟩
    simp [List.nodup_append, h, hk]

lemma sendMsg_recent_cases (cfg : WCfg) (now : Int) (st : ChanState)
    (msg : OutMsg) :
    (sendMsg cfg now st msg).1.recent_sends = st.recent_sends ∨
    ∃ k, (sendMsg cfg now st msg).1.recent_sends =
        dictInsert k now st.recent_sends := by
  unfold sendMsg
  by_cases hc : st.hasWs = false ∨ st.connected = false
  · rw [if_pos hc]
    left
    rfl
  · rw [if_neg hc]
    cases msg.content with
    | none => left; rfl
    | some c =>
        dsimp only
        by_cases he : c = ""
        · rw [if_pos he]
          left
          rfl
        · rw [if_neg he]
          right
          exact ⟨_, rfl⟩

lemma handle_recent_cases (cfg : WCfg) (now : Int) (fr : Frame)
    (st : ChanState) :
    (handle_bridge_message cfg now fr st).1.recent_sends = st.recent_sends ∨
    (handle_bridge_message cfg now fr st).1.recent_sends =
      pruneSends now st.recent_sends ∨
    ∃ m rest, fr = .message m ∧
      echoScan m.chat_id m.content (pruneSends now st.recent_sends) =
        some rest ∧
      (handle_bridge_message cfg now fr st).1.recent_sends = rest := by
  cases fr with
  | result a b c => left; rfl
  | error a => left; rfl
  | other => left; rfl
  | malformed => left; rfl
  | message m =>
      by_cases hs : m.is_self = true
      · cases hscan : echoScan m.chat_id m.content (pruneSends now st.recent_sends) with
        | some rest =>
            right; right
            refine ⟨m, rest, rfl, hscan, ?_⟩
            simp only [handle_bridge_message, hs, if_true, hscan]
        | none =>
            right; left
            simp only [handle_bridge_message, hs, if_true, hscan]
            split_ifs <;> rfl
      · left
        have hs' : m.is_self = false := by
          cases h : m.is_self
          · rfl
          · exact absurd h hs
        simp only [handle_bridge_message, hs', Bool.false_eq_true, if_false]
        split_ifs <;> rfl

/-- C10: the send tracker holds at most one entry per key in every
reachable state — both the outbound send and every inbound frame preserve
pairwise-distinct keys — and recording an already-present fingerprint
overwrites its timestamp in place instead of adding a second entry;
consequently, after the bot sends identical text twice within the window,
the tracker holds a single entry, one self-echo is suppressed, and the
second identical self-observation is dispatched as genuine input. -/
theorem send_tracker_unique_keys (cfg : WCfg) (now : Int) (st : ChanState)
    (msg : OutMsg) (fr : Frame) (k : String × String) (v : Int)
    (hkeys : (st.recent_sends.map (fun e => e.1)).Nodup) :
    ((sendMsg cfg now st msg).1.recent_sends.map (fun e => e.1)).Nodup ∧
    ((handle_bridge_message cfg now fr st).1.recent_sends.map
        (fun e => e.1)).Nodup ∧
    (k ∈ st.recent_sends.map (fun e => e.1) →
        (dictInsert k v st.recent_sends).map (fun e => e.1) =
          st.recent_sends.map (fun e => e.1)) ∧
    ((k, v) ∈ dictInsert k v st.recent_sends) ∧
    (stTwoSends.recent_sends = [(("c", "hello world this is "), 105)]) ∧
    ((handle_bridge_message cfgMention 110 (.message selfEcho)
        stTwoSends).2 = none) ∧
    (stAfterEcho.recent_sends = []) ∧
    ((handle_bridge_message cfgMention 111 (.message selfEcho)
        stAfterEcho).2 =
      some ⟨"me", "c", "hello world this is a long message with altered tail",
            ⟨none, none, false, "text"⟩⟩) := by
  refine ⟨?_, ?_, ?_, ?_, by decide, by decide, by decide, by decide⟩
  · rcases sendMsg_recent_cases cfg now st msg with h | ⟨k2, h⟩
    · rwa [h]
    · rw [h]
      exact dictInsert_nodup k2 now st.recent_sends hkeys
  · rcases handle_recent_cases cfg now fr st with h | h | ⟨m, rest, _, hscan, h⟩
    · rwa [h]
    · rw [h]
      exact ((List.filter_sublist _).map _).nodup hkeys
    · rw [h]
      have hsub := (echoScan_some_sublist _ _ _ _ hscan).map (fun e => e.1)
      exact hsub.nodup (((List.filter_sublist _).map _).nodup hkeys)
  · intro hmem
    rw [dictInsert_map_key, if_pos]
    rw [List.any_eq_true]
    obtain ⟨e, he, hke⟩ := List.mem_map.mp hmem
    exact ⟨e, he, by simp [hke]⟩
  · unfold dictInsert
    by_cases hp : st.recent_sends.any (fun e => e.1 == k)
    · rw [if_pos hp]
      rw [List.any_eq_true] at hp
      obtain ⟨e, he, hke⟩ := hp
      rw [List.mem_map]
      refine ⟨e, he, ?_⟩
      rw [if_pos (by simpa using hke)]
    · rw [if_neg hp]
      simp

/-- Witness for C10 at a concrete one-entry tracker. -/
theorem send_tracker_unique_keys_witness :
    ((sendMsg cfgMention 0 stOneSend outHello).1.recent_sends.map
        (fun e => e.1)).Nodup ∧
    ((("c", "hello"), (5:Int)) ∈
      dictInsert ("c", "hello") 5 stOneSend.recent_sends) :=
  ⟨(send_tracker_unique_keys cfgMention 0 stOneSend outHello .other
      ("c", "hello") 5 (by decide)).1,
   (send_tracker_unique_keys cfgMention 0 stOneSend outHello .other
      ("c", "hello") 5 (by decide)).2.2.2.1⟩

lemma firstIdx_eq_none (p : Char → Bool) (l : List Char)
    (h : ∀ c ∈ l, p c = false) : firstIdx p l = none := by
  induction l with
  | nil => rfl
  | cons c rest ih =>
      rw [firstIdx, if_neg (by simp [h c (List.mem_cons_self c rest)])]
      rw [ih (fun c hc => h c (List.mem_cons_of_mem _ hc))]
      rfl

lemma findClose_eq_none (t : Char) (pat l : List Char) (h : t ∉ l) :
    findClose (t :: pat) l = none := by
  induction l with
  | nil => rfl
  | cons c rest ih =>
      have hct : ¬(t = c) := fun he => h (he ▸ List.mem_cons_self c rest)
      rw [findClose, if_neg (by simp [List.isPrefixOf, hct])]
      by_cases hnl : c = '\n'
      · rw [if_pos (by simp [hnl])]
      · rw [if_neg (by simp [hnl]), ih (fun hm => h (List.mem_cons_of_mem _ hm))]
        rfl

lemma findCloseU_eq_none (l : List Char) (h : ('_' : Char) ∉ l) :
    findCloseU l = none := by
  induction l with
  | nil => rfl
  | cons c rest ih =>
      have hcu : ¬(c = '_') := fun he => h (he ▸ List.mem_cons_self c rest)
      rw [findCloseU.eq_def]
      dsimp only
      rw [if_neg (by simp [hcu])]
      by_cases hnl : c = '\n'
      · rw [if_pos (by simp [hnl])]
      · rw [if_neg (by simp [hnl]), ih (fun hm => h (List.mem_cons_of_mem _ hm))]
        rfl

lemma fenceM_ne (prev : Option Char) (c : Char) (rest : List Char)
    (hc : c ≠ '`') : fenceM prev (c :: rest) = none := by
  simp [fenceM, hc]

lemma fenceM_lone (prev : Option Char) (rest : List Char)
    (h : ('`' : Char) ∉ rest) : fenceM prev ('`' :: rest) = none := by
  have htk : rest.take 2 ≠ ['`', '`'] := by
    intro he
    exact h (List.take_subset 2 rest (he ▸ List.mem_cons_self '`' ['`']))
  simp [fenceM, htk]

lemma inlineM_ne (prev : Option Char) (c : Char) (rest : List Char)
    (hc : c ≠ '`') : inlineM prev (c :: rest) = none := by
  simp [inlineM, hc]

lemma inlineM_lone (prev : Option Char) (rest : List Char)
    (h : ('`' : Char) ∉ rest) : inlineM prev ('`' :: rest) = none := by
  have hfi : firstIdx (· == '`') rest = none :=
    firstIdx_eq_none _ rest (fun c hc => by
      simp only [beq_eq_false_iff_ne, ne_eq]
      exact fun he => h (he ▸ hc))
  simp [inlineM, hfi]

lemma imageM_ne (prev : Option Char) (c : Char) (rest : List Char)
    (hc : c ≠ '!') : imageM prev (c :: rest) = none := by
  simp [imageM, hc]

lemma linkM_ne (prev : Option Char) (c : Char) (rest : List Char)
    (hc : c ≠ '[') : linkM prev (c :: rest) = none := by
  simp [linkM, hc]

lemma emphM_ne (marker : Char) (r : Nat) (prev : Option Char) (c : Char)
    (rest : List Char) (hc : c ≠ marker) :
    emphM marker r prev (c :: rest) = none := by
  simp [emphM, hc]

lemma emphM_lone (marker : Char) (r : Nat) (prev : Option Char)
    (rest : List Char) (hr : 1 ≤ r) (h : marker ∉ rest) :
    emphM marker r prev (marker :: rest) = none := by
  obtain ⟨n, rfl⟩ : ∃ n, r = n + 1 := ⟨r - 1, by omega⟩
  cases n with
  | succ k =>
      have htk : rest.take (k + 1) ≠ List.replicate (k + 1) marker := by
        intro he
        apply h
        apply List.take_subset (k + 1) rest
        rw [he]
        simp [List.replicate_succ]
      simp [emphM, htk]
  | zero =>
      rw [emphM]
      rw [if_pos rfl, if_pos (by simp)]
      cases hd : rest.drop (1 - 1) with
      | nil => rfl
      | cons d r2 =>
          dsimp only
          have hdrest : rest = d :: r2 := by simpa using hd
          by_cases hdn : d = '\n'
          · simp [hdn]
          · rw [if_neg hdn]
            have : marker ∉ r2 := fun hm =>
              h (hdrest ▸ List.mem_cons_of_mem _ hm)
            rw [show List.replicate 1 marker = [marker] from rfl,
              findClose_eq_none marker [] r2 this]

lemma italUM_ne (prev : Option Char) (c : Char) (rest : List Char)
    (hc : c ≠ '_') : italUM prev (c :: rest) = none := by
  simp [italUM, hc]

lemma italUM_lone (prev : Option Char) (rest : List Char)
    (h : ('_' : Char) ∉ rest) : italUM prev ('_' :: rest) = none := by
  rw [italUM.eq_def]
  dsimp only
  rw [if_pos rfl]
  by_cases hw : isWordCharOpt prev = true
  · rw [if_pos hw]
  · rw [if_neg hw]
    cases rest with
    | nil => rfl
    | cons d r2 =>
        dsimp only
        by_cases hdn : d = '\n'
        · simp [hdn]
        · rw [if_neg hdn]
          have : ('_' : Char) ∉ r2 := fun hm => h (List.mem_cons_of_mem _ hm)
          rw [findCloseU_eq_none r2 this]

lemma headerM_ne (prev : Option Char) (c : Char) (rest : List Char)
    (hc : c ≠ '#') : headerM prev (c :: rest) = none := by
  simp [headerM, hc]

lemma bqM_ne (prev : Option Char) (c : Char) (rest : List Char)
    (hc : c ≠ '>') : bqM prev (c :: rest) = none := by
  simp [bqM, hc]

lemma hrM_ne (prev : Option Char) (c : Char) (rest : List Char)
    (hc : ¬(c = '-' ∨ c = '*' ∨ c = '_')) : hrM prev (c :: rest) = none := by
  simp only [hrM]
  rw [if_neg hc]

lemma hrM_run1 (prev : Option Char) (c : Char) (rest : List Char)
    (h : rest.takeWhile (fun x => x == '-' || x == '*' || x == '_') = []) :
    hrM prev (c :: rest) = none := by
  simp [hrM, h]

lemma collapseM_ne (prev : Option Char) (c : Char) (rest : List Char)
    (hc : c ≠ '\n') : collapseM prev (c :: rest) = none := by
  simp [collapseM, hc]

lemma takeWhile_hr_nil (rest : List Char) (h : ∀ c ∈ rest, plainChar c) :
    rest.takeWhile (fun x => x == '-' || x == '*' || x == '_') = [] := by
  cases rest with
  | nil => rfl
  | cons d tl =>
      have hp := h d (List.mem_cons_self d tl)
      rw [List.takeWhile_cons, if_neg]
      simp [hp.2.2.2.2.2.2.2.2.1, hp.2.1, hp.2.2.1]

lemma scanSubF_keep (tryM : Option Char → List Char → Option (List Char × Nat))
    (m : Char)
    (hM : ∀ prev c rest, plainChar c → tryM prev (c :: rest) = none)
    (hm : ∀ prev rest, (∀ c ∈ rest, plainChar c) → tryM prev (m :: rest) = none) :
    ∀ fuel prev l, (∀ c ∈ l, plainChar c ∨ c = m) →
      l.countP (fun c => c == m) ≤ 1 → scanSubF tryM fuel prev l = l := by
  intro fuel
  induction fuel with
  | zero => intro prev l _ _; rfl
  | succ n ih =>
      intro prev l hall hcount
      cases l with
      | nil => rfl
      | cons c rest =>
          have htail : ∀ x ∈ rest, plainChar x ∨ x = m := fun x hx =>
            hall x (List.mem_cons_of_mem _ hx)
          rcases hall c (List.mem_cons_self c rest) with hp | rfl
          · rw [scanSubF, hM prev c rest hp]
            have hcount' : rest.countP (fun x => x == m) ≤ 1 := by
              rw [List.countP_cons] at hcount
              omega
            rw [ih (some c) rest htail hcount']
          · have hzero : rest.countP (fun x => x == c) = 0 := by
              rw [List.countP_cons] at hcount
              simp only [beq_self_eq_true, if_true] at hcount
              omega
            have hrestp : ∀ x ∈ rest, plainChar x := by
              intro x hx
              rcases htail x hx with hp | rfl
              · exact hp
              · exfalso
                have hxx := List.countP_eq_zero.mp hzero x hx
                simp at hxx
            rw [scanSubF, hm prev rest hrestp]
            rw [ih (some c) rest (fun x hx => Or.inl (hrestp x hx))
              (by rw [hzero]; omega)]

lemma fence_keep (m : Char) (fuel : Nat) (prev : Option Char) (l : List Char)
    (hall : ∀ c ∈ l, plainChar c ∨ c = m)
    (hcount : l.countP (fun c => c == m) ≤ 1) :
    scanSubF fenceM fuel prev l = l := by
  refine scanSubF_keep fenceM m ?_ ?_ fuel prev l hall hcount
  · exact fun prev c rest hp => fenceM_ne prev c rest hp.1
  · intro prev rest hrest
    by_cases hcm : m = '`'
    · subst hcm
      exact fenceM_lone prev rest (fun hmem => (hrest _ hmem).1 rfl)
    · exact fenceM_ne prev m rest hcm

lemma inline_keep (m : Char) (fuel : Nat) (prev : Option Char) (l : List Char)
    (hall : ∀ c ∈ l, plainChar c ∨ c = m)
    (hcount : l.countP (fun c => c == m) ≤ 1) :
    scanSubF inlineM fuel prev l = l := by
  refine scanSubF_keep inlineM m ?_ ?_ fuel prev l hall hcount
  · exact fun prev c rest hp => inlineM_ne prev c rest hp.1
  · intro prev rest hrest
    by_cases hcm : m = '`'
    · subst hcm
      exact inlineM_lone prev rest (fun hmem => (hrest _ hmem).1 rfl)
    · exact inlineM_ne prev m rest hcm

lemma image_keep (m : Char) (hm4 : m = '`' ∨ m = '*' ∨ m = '_' ∨ m = '~')
    (fuel : Nat) (prev : Option Char) (l : List Char)
    (hall : ∀ c ∈ l, plainChar c ∨ c = m)
    (hcount : l.countP (fun c => c == m) ≤ 1) :
    scanSubF imageM fuel prev l = l := by
  refine scanSubF_keep imageM m ?_ ?_ fuel prev l hall hcount
  · exact fun prev c rest hp => imageM_ne prev c rest hp.2.2.2.2.2.2.2.1
  · intro prev rest _
    rcases hm4 with rfl | rfl | rfl | rfl <;>
      exact imageM_ne prev _ rest (by decide)

lemma link_keep (m : Char) (hm4 : m = '`' ∨ m = '*' ∨ m = '_' ∨ m = '~')
    (fuel : Nat) (prev : Option Char) (l : List Char)
    (hall : ∀ c ∈ l, plainChar c ∨ c = m)
    (hcount : l.countP (fun c => c == m) ≤ 1) :
    scanSubF linkM fuel prev l = l := by
  refine scanSubF_keep linkM m ?_ ?_ fuel prev l hall hcount
  · exact fun prev c rest hp => linkM_ne prev c rest hp.2.2.2.2.2.2.1
  · intro prev rest _
    rcases hm4 with rfl | rfl | rfl | rfl <;>
      exact linkM_ne prev _ rest (by decide)

lemma emph_keep (marker : Char) (r : Nat) (hr : 1 ≤ r)
    (hexcl : ∀ x, plainChar x → x ≠ marker) (m : Char) (fuel : Nat)
    (prev : Option Char) (l : List Char)
    (hall : ∀ c ∈ l, plainChar c ∨ c = m)
    (hcount : l.countP (fun c => c == m) ≤ 1) :
    scanSubF (emphM marker r) fuel prev l = l := by
  refine scanSubF_keep (emphM marker r) m ?_ ?_ fuel prev l hall hcount
  · exact fun prev c rest hp => emphM_ne marker r prev c rest (hexcl c hp)
  · intro prev rest hrest
    by_cases hcm : m = marker
    · subst hcm
      exact emphM_lone m r prev rest hr
        (fun hmem => hexcl _ (hrest _ hmem) rfl)
    · exact emphM_ne marker r prev m rest hcm

lemma italU_keep (m : Char) (fuel : Nat) (prev : Option Char) (l : List Char)
    (hall : ∀ c ∈ l, plainChar c ∨ c = m)
    (hcount : l.countP (fun c => c == m) ≤ 1) :
    scanSubF italUM fuel prev l = l := by
  refine scanSubF_keep italUM m ?_ ?_ fuel prev l hall hcount
  · exact fun prev c rest hp => italUM_ne prev c rest hp.2.2.1
  · intro prev rest hrest
    by_cases hcm : m = '_'
    · subst hcm
      exact italUM_lone prev rest (fun hmem => (hrest _ hmem).2.2.1 rfl)
    · exact italUM_ne prev m rest hcm

lemma header_keep (m : Char) (hm4 : m = '`' ∨ m = '*' ∨ m = '_' ∨ m = '~')
    (fuel : Nat) (prev : Option Char) (l : List Char)
    (hall : ∀ c ∈ l, plainChar c ∨ c = m)
    (hcount : l.countP (fun c => c == m) ≤ 1) :
    scanSubF headerM fuel prev l = l := by
  refine scanSubF_keep headerM m ?_ ?_ fuel prev l hall hcount
  · exact fun prev c rest hp => headerM_ne prev c rest hp.2.2.2.2.1
  · intro prev rest _
    rcases hm4 with rfl | rfl | rfl | rfl <;>
      exact headerM_ne prev _ rest (by decide)

lemma bq_keep (m : Char) (hm4 : m = '`' ∨ m = '*' ∨ m = '_' ∨ m = '~')
    (fuel : Nat) (prev : Option Char) (l : List Char)
    (hall : ∀ c ∈ l, plainChar c ∨ c = m)
    (hcount : l.countP (fun c => c == m) ≤ 1) :
    scanSubF bqM fuel prev l = l := by
  refine scanSubF_keep bqM m ?_ ?_ fuel prev l hall hcount
  · exact fun prev c rest hp => bqM_ne prev c rest hp.2.2.2.2.2.1
  · intro prev rest _
    rcases hm4 with rfl | rfl | rfl | rfl <;>
      exact bqM_ne prev _ rest (by decide)

lemma hr_keep (m : Char) (hm4 : m = '`' ∨ m = '*' ∨ m = '_' ∨ m = '~')
    (fuel : Nat) (prev : Option Char) (l : List Char)
    (hall : ∀ c ∈ l, plainChar c ∨ c = m)
    (hcount : l.countP (fun c => c == m) ≤ 1) :
    scanSubF hrM fuel prev l = l := by
  refine scanSubF_keep hrM m ?_ ?_ fuel prev l hall hcount
  · intro prev c rest hp
    exact hrM_ne prev c rest (by
      rintro (rfl | rfl | rfl)
      · exact hp.2.2.2.2.2.2.2.2.1 rfl
      · exact hp.2.1 rfl
      · exact hp.2.2.1 rfl)
  · intro prev rest hrest
    rcases hm4 with rfl | rfl | rfl | rfl
    · exact hrM_ne prev _ rest (by decide)
    · exact hrM_run1 prev _ rest (takeWhile_hr_nil rest hrest)
    · exact hrM_run1 prev _ rest (takeWhile_hr_nil rest hrest)
    · exact hrM_ne prev _ rest (by decide)

lemma collapse_keep (m : Char) (hm4 : m = '`' ∨ m = '*' ∨ m = '_' ∨ m = '~')
    (fuel : Nat) (prev : Option Char) (l : List Char)
    (hall : ∀ c ∈ l, plainChar c ∨ c = m)
    (hcount : l.countP (fun c => c == m) ≤ 1) :
    scanSubF collapseM fuel prev l = l := by
  refine scanSubF_keep collapseM m ?_ ?_ fuel prev l hall hcount
  · exact fun prev c rest hp => collapseM_ne prev c rest hp.2.2.2.2.2.2.2.2.2
  · intro prev rest _
    rcases hm4 with rfl | rfl | rfl | rfl <;>
      exact collapseM_ne prev _ rest (by decide)

lemma stripEnds_id (l : List Char)
    (hh : ∀ c ∈ l.take 1, isWs c = false)
    (hl2 : ∀ c ∈ l.reverse.take 1, isWs c = false) :
    stripEnds l = l := by
  have d1 : ∀ (xs : List Char), (∀ c ∈ xs.take 1, isWs c = false) →
      xs.dropWhile isWs = xs := by
    intro xs hx
    cases xs with
    | nil => rfl
    | cons a t =>
        rw [List.dropWhile_cons, if_neg]
        simp [hx a (by simp)]
  unfold stripEnds
  rw [d1 l hh, d1 l.reverse hl2, List.reverse_reverse]

lemma strip_markdown_list_keep (m : Char)
    (hm4 : m = '`' ∨ m = '*' ∨ m = '_' ∨ m = '~') (l : List Char)
    (hall : ∀ c ∈ l, plainChar c ∨ c = m)
    (hcount : l.countP (fun c => c == m) ≤ 1)
    (hh : ∀ c ∈ l.take 1, isWs c = false)
    (hl2 : ∀ c ∈ l.reverse.take 1, isWs c = false) :
    strip_markdown_list l = l := by
  have hstar : ∀ x, plainChar x → x ≠ '*' := fun x hx => hx.2.1
  have hund : ∀ x, plainChar x → x ≠ '_' := fun x hx => hx.2.2.1
  have htil : ∀ x, plainChar x → x ≠ '~' := fun x hx => hx.2.2.2.1
  unfold strip_markdown_list scanSub
  rw [fence_keep m _ none l hall hcount,
    inline_keep m _ none l hall hcount,
    image_keep m hm4 _ none l hall hcount,
    link_keep m hm4 _ none l hall hcount,
    emph_keep '*' 3 (by omega) hstar m _ none l hall hcount,
    emph_keep '_' 3 (by omega) hund m _ none l hall hcount,
    emph_keep '*' 2 (by omega) hstar m _ none l hall hcount,
    emph_keep '_' 2 (by omega) hund m _ none l hall hcount,
    emph_keep '*' 1 (by omega) hstar m _ none l hall hcount,
    italU_keep m _ none l hall hcount,
    emph_keep '~' 2 (by omega) htil m _ none l hall hcount,
    header_keep m hm4 _ none l hall hcount,
    bq_keep m hm4 _ none l hall hcount,
    hr_keep m hm4 _ none l hall hcount,
    collapse_keep m hm4 _ none l hall hcount]
  exact stripEnds_id l hh hl2

/-- C4 counterexample: the normalizer is not idempotent on every string:
one pass over "  # x" only strips the surrounding whitespace (the header
rule is line-anchored and runs before the final strip), so the second
pass removes the then-exposed header marker. -/
theorem strip_markdown_not_idempotent :
    strip_markdown (strip_markdown "  # x") ≠ strip_markdown "  # x" := by
  decide

/-- C4 amended: the Text Normalizer is idempotent on already-plain text:
any string with no markup-trigger characters (backtick, asterisk,
underscore, tilde, hash, blockquote marker, bracket, bang, hyphen,
newline) and no leading or trailing whitespace is a fixed point, hence
normalizing twice equals normalizing once on such strings; full
idempotence on arbitrary strings fails (see the counterexample). -/
theorem strip_markdown_idempotent_on_plain (s : String)
    (hall : ∀ c ∈ s.data, plainChar c)
    (hh : ∀ c ∈ s.data.take 1, isWs c = false)
    (hl2 : ∀ c ∈ s.data.reverse.take 1, isWs c = false) :
    strip_markdown s = s ∧
    strip_markdown (strip_markdown s) = strip_markdown s := by
  have h0 : s.data.countP (fun c => c == '`') = 0 :=
    List.countP_eq_zero.mpr (fun c hc => by simp [(hall c hc).1])
  have hfix : strip_markdown s = s := by
    unfold strip_markdown
    rw [strip_markdown_list_keep '`' (Or.inl rfl) s.data
      (fun c hc => Or.inl (hall c hc)) (by omega) hh hl2]
  exact ⟨hfix, by rw [hfix]; exact hfix⟩

/-- Witness for C4 at a concrete plain string. -/
theorem strip_markdown_idempotent_on_plain_witness :
    strip_markdown "hello world" = "hello world" ∧
    strip_markdown (strip_markdown "hello world") =
      strip_markdown "hello world" :=
  strip_markdown_idempotent_on_plain "hello world" (by decide) (by decide)
    (by decide)

/-- C9: the Text Normalizer is a total function of the input string (the
embedding returns normally on every input by construction), and malformed
markup degrades gracefully: a string containing at most one occurrence of
a marker character (backtick, asterisk, underscore or tilde) — hence no
closing counterpart — among otherwise plain characters, with no leading
or trailing whitespace, passes through entirely unchanged, the unmatched
marker surviving as a literal character. -/
theorem strip_markdown_lone_marker (s : String) (m : Char)
    (hm4 : m = '`' ∨ m = '*' ∨ m = '_' ∨ m = '~')
    (hcount : s.data.countP (fun c => c == m) ≤ 1)
    (hothers : ∀ c ∈ s.data, plainChar c ∨ c = m)
    (hh : ∀ c ∈ s.data.take 1, isWs c = false)
    (hl2 : ∀ c ∈ s.data.reverse.take 1, isWs c = false) :
    strip_markdown s = s := by
  unfold strip_markdown
  rw [strip_markdown_list_keep m hm4 s.data hothers hcount hh hl2]

/-- Witness for C9 at lone-marker strings for each of the four markers. -/
theorem strip_markdown_lone_marker_witness :
    strip_markdown "a ` b" = "a ` b" ∧
    strip_markdown "c * d" = "c * d" ∧
    strip_markdown "e _ f" = "e _ f" ∧
    strip_markdown "g ~ h" = "g ~ h" :=
  ⟨strip_markdown_lone_marker "a ` b" '`' (Or.inl rfl) (by decide)
      (by decide) (by decide) (by decide),
   strip_markdown_lone_marker "c * d" '*' (Or.inr (Or.inl rfl)) (by decide)
      (by decide) (by decide) (by decide),
   strip_markdown_lone_marker "e _ f" '_' (Or.inr (Or.inr (Or.inl rfl)))
      (by decide) (by decide) (by decide) (by decide),
   strip_markdown_lone_marker "g ~ h" '~' (Or.inr (Or.inr (Or.inr rfl)))
      (by decide) (by decide) (by decide) (by decide)⟩

end Nanobot
